import Mathlib

/-!
Shallow embedding of the aavev3-raw-events-decoder repository
(`src/src/events_decoder/events_decoder.py`,
`src/src/events_decoder/token_transfer_decoder.py`).

Conventions of the embedding:
* Python strings are Lean `String`s; Python slicing/indexing is modelled by
  the `py*` helpers below, faithful to Python semantics (slices clamp,
  indexing raises `IndexError`, `int(s, 16)` raises `ValueError` on
  non-hex input, dict update overwrites in place).
* Python's unbounded `int` is `Nat` (all parsed values are non-negative).
* Fallible Python code is `Except PyErr`.
* The external library functions `Web3.keccak`/`Web3.to_hex` and the
  EIP-55 casing core of `Web3.to_checksum_address` are not code of this
  repository; they are passed as explicit function parameters
  (`keccakHex`, `cs`).  `to_checksum_address`'s input validation
  (strip optional `0x`, require exactly 40 hex characters, lowercase
  before casing, return `0x`-prefixed) is modelled explicitly.
* `json.loads` (the classifier's per-entry parse) is likewise external and
  deterministic; it is passed as a `parse : String → RawEntry` parameter.
-/

namespace AaveDecoder

/-- Python runtime errors that the decoder code can raise. -/
inductive PyErr
  | indexError
  | valueError
  | keyError
deriving DecidableEq, Repr

/-- A decoded field value: checksummed address strings or Python ints. -/
inductive Value
  | str : String → Value
  | int : Nat → Value
deriving DecidableEq, Repr

/-- A raw log entry as consumed by the pool decoder (`encoded_event` dict). -/
structure RawEntry where
  blockNumber : Nat
  topics : List String
  data : String
deriving DecidableEq, Repr

/-- A decoded record: the Python dict literal, as an ordered association list. -/
abbrev Record := List (String × Value)

/-! ### Python primitive operations -/

/-- Python `l[i]` on a list (non-negative index): `IndexError` when out of range. -/
def pyIndex {α : Type} (l : List α) (i : Nat) : Except PyErr α :=
  match l.get? i with
  | some a => .ok a
  | none => .error .indexError

/-- Python `s[:b]` (clamping, never an error). -/
def pySliceTo (s : String) (b : Nat) : String :=
  String.mk (s.data.take b)

/-- Python `s[n:]`. -/
def pyDropStr (s : String) (n : Nat) : String :=
  String.mk (s.data.drop n)

/-- Python `s[a:b]` with `0 ≤ a ≤ b`. -/
def pySlice (s : String) (a b : Nat) : String :=
  String.mk ((s.data.drop a).take (b - a))

/-- Python `s[-n:]` for `n > 0`: the last `min n (length s)` characters. -/
def pyTakeLast (s : String) (n : Nat) : String :=
  String.mk (s.data.drop (s.data.length - n))

/-- Hex digit value, as accepted by Python `int(_, 16)`. -/
def hexDigit? (c : Char) : Option Nat :=
  if '0' ≤ c ∧ c ≤ '9' then some (c.toNat - 48)
  else if 'a' ≤ c ∧ c ≤ 'f' then some (c.toNat - 87)
  else if 'A' ≤ c ∧ c ≤ 'F' then some (c.toNat - 55)
  else none

/-- Strip one optional leading `0x`/`0X`, as Python `int(_, 16)` and web3 do. -/
def stripHexPrefix (s : String) : String :=
  match s.data with
  | '0' :: c :: rest => if c = 'x' ∨ c = 'X' then String.mk rest else s
  | _ => s

/-- Python `int(s, 16)`: optional `0x` prefix, then a non-empty run of hex
digits; anything else raises `ValueError`.  (The inputs of this repository
never carry signs, whitespace or underscores, which Python would also allow.) -/
def pyIntHex (s : String) : Except PyErr Nat :=
  let t := stripHexPrefix s
  match t.data.foldl (fun acc c => acc.bind fun n => (hexDigit? c).map fun d => 16 * n + d)
      (some 0) with
  | some n => if t.data.isEmpty then .error .valueError else .ok n
  | none => .error .valueError

/-- Lowercase an address string (web3 lowercases before EIP-55 casing). -/
def pyToLower (s : String) : String :=
  String.mk (s.data.map Char.toLower)

/-- `Web3.to_checksum_address`: validates that the argument is a 20-byte hex
string (optional `0x` prefix), then returns `"0x" ++` the EIP-55 mixed-case
form of the lowercased 40 hex characters.  The EIP-55 casing core (which
hashes the lowercase address with Keccak-256 and uppercases digits whose
hash nibble is ≥ 8) is the external-library parameter `cs`. -/
def toChecksumAddress (cs : String → String) (s : String) : Except PyErr String :=
  let t := stripHexPrefix s
  if t.data.length = 40 ∧ t.data.all (fun c => (hexDigit? c).isSome) then
    .ok ("0x" ++ cs (pyToLower t))
  else .error .valueError

/-- First-occurrence duplicate removal.  Models Python's
`list(set(xs))` / `pandas.unique` / `drop_duplicates` at the level the
claims use them (set semantics: the claims only depend on the resulting
elements, and first-occurrence order is one concrete realization). -/
def pyDedupAux {α : Type} [DecidableEq α] (seen : List α) : List α → List α
  | [] => []
  | x :: xs => if x ∈ seen then pyDedupAux seen xs else x :: pyDedupAux (x :: seen) xs

def pyDedup {α : Type} [DecidableEq α] (l : List α) : List α :=
  pyDedupAux [] l

/-- Association-list lookup with decidable string keys (first match wins),
the observable content of a Python dict read `d[k]` / `d.get(k)`. -/
def pyLookup {β : Type} (k : String) : List (String × β) → Option β
  | [] => none
  | (k', v) :: rest => if k = k' then some v else pyLookup k rest

/-- `Except`-valued map over a list, left to right, stopping at the first
error — the semantics of the decoders' Python `for` loops that `append`
one decoded record per input. -/
def exceptMapM {α β : Type} (f : α → Except PyErr β) : List α → Except PyErr (List β)
  | [] => .ok []
  | x :: xs =>
    match f x with
    | .error err => .error err
    | .ok y =>
      match exceptMapM f xs with
      | .error err => .error err
      | .ok ys => .ok (y :: ys)

/-! ### Pool event decoders (`events_decoder.py`)

Each `decode_*` function is the shallow embedding of the corresponding
`AaveV3RawEventsDecoder._decode_*` method; `cs` is the EIP-55 casing core
of `Web3.to_checksum_address` (external library). -/

/-- `_decode_supply` (events_decoder.py lines 153-171). -/
def decode_supply (cs : String → String) (e : RawEntry) : Except PyErr Record := do
  let t1 ← pyIndex e.topics 1
  let reserve ← toChecksumAddress cs (pyTakeLast t1 40)
  let t2 ← pyIndex e.topics 2
  let onBehalfOf ← toChecksumAddress cs (pyTakeLast t2 40)
  let t3 ← pyIndex e.topics 3
  let referralCode ← pyIntHex t3
  let event_data := pyDropStr e.data 2
  let user ← toChecksumAddress cs (pyTakeLast (pySliceTo event_data 64) 40)
  let amount ← pyIntHex (pySlice event_data 64 128)
  .ok [("event", .str "Supply"), ("blockNumber", .int e.blockNumber),
       ("reserve", .str reserve), ("onBehalfOf", .str onBehalfOf),
       ("referralCode", .int referralCode), ("user", .str user),
       ("amount", .int amount)]

/-- `_decode_borrow` (events_decoder.py lines 129-151). -/
def decode_borrow (cs : String → String) (e : RawEntry) : Except PyErr Record := do
  let t1 ← pyIndex e.topics 1
  let reserve ← toChecksumAddress cs (pyTakeLast t1 40)
  let t2 ← pyIndex e.topics 2
  let onBehalfOf ← toChecksumAddress cs (pyTakeLast t2 40)
  let t3 ← pyIndex e.topics 3
  let referralCode ← pyIntHex t3
  let event_data := pyDropStr e.data 2
  let user ← toChecksumAddress cs (pyTakeLast (pySliceTo event_data 64) 40)
  let amount ← pyIntHex (pySlice event_data 64 128)
  let interestRateMode ← pyIntHex (pySlice event_data 128 192)
  let borrowRate ← pyIntHex (pyDropStr event_data 192)
  .ok [("event", .str "Borrow"), ("blockNumber", .int e.blockNumber),
       ("reserve", .str reserve), ("onBehalfOf", .str onBehalfOf),
       ("referralCode", .int referralCode), ("user", .str user),
       ("amount", .int amount), ("interestRateMode", .int interestRateMode),
       ("borrowRate", .int borrowRate)]

/-- `_decode_mint_unbacked` (events_decoder.py lines 334-359).  Note that the
source passes `topics[3][-40:]` — the `uint16 referralCode` topic — to
`Web3.to_checksum_address`, so `referralCode` comes out as a checksummed
address string, not an integer. -/
def decode_mint_unbacked (cs : String → String) (e : RawEntry) : Except PyErr Record := do
  let t1 ← pyIndex e.topics 1
  let reserve ← toChecksumAddress cs (pyTakeLast t1 40)
  let t2 ← pyIndex e.topics 2
  let onBehalfOf ← toChecksumAddress cs (pyTakeLast t2 40)
  let t3 ← pyIndex e.topics 3
  let referralCode ← toChecksumAddress cs (pyTakeLast t3 40)
  let event_data := pyDropStr e.data 2
  let user ← toChecksumAddress cs (pyTakeLast (pySliceTo event_data 64) 40)
  let amount ← pyIntHex (pyDropStr event_data 64)
  .ok [("event", .str "MintUnbacked"), ("blockNumber", .int e.blockNumber),
       ("reserve", .str reserve), ("onBehalfOf", .str onBehalfOf),
       ("referralCode", .str referralCode), ("user", .str user),
       ("amount", .int amount)]

/-! ### Signature index (`get_events_signatures_as_hex`) -/

/-- One entry of the contract ABI (only the keys the source reads). -/
structure AbiEntry where
  type : String
  name : String
  inputs : List String
deriving DecidableEq, Repr

/-- The Solidity signature string `name(type1,type2,...)` built by the source. -/
def eventSignature (a : AbiEntry) : String :=
  a.name ++ "(" ++ String.intercalate "," a.inputs ++ ")"

/-- Python `dict.update({k: v})` on an insertion-ordered association list:
overwrite in place when the key exists, append otherwise. -/
def dictUpdate (d : List (String × String)) (k v : String) : List (String × String) :=
  match d with
  | [] => [(k, v)]
  | (k', v') :: rest => if k' = k then (k, v) :: rest else (k', v') :: dictUpdate rest k v

/-- `AaveV3RawEventsDecoder.get_events_signatures_as_hex` (lines 15-44):
for each ABI entry of type `"event"`, hash its signature string with
Keccak-256 (`keccakHex`, the external `Web3.to_hex (Web3.keccak ...)`) and
insert `hash ↦ name` into the dictionary. -/
def get_events_signatures_as_hex (keccakHex : String → String)
    (contract_abi : List AbiEntry) : List (String × String) :=
  contract_abi.foldl
    (fun d a => if a.type = "event" then dictUpdate d (keccakHex (eventSignature a)) a.name else d)
    []

/-! ### Raw event classifier (`classify_raw_events`, lines 46-64) -/

/-- Bucket table: insertion-ordered dict from event name to entries. -/
abbrev Buckets := List (String × List RawEntry)

/-- `{event_name: [] for event_name in signatures.values()}` — the dict
comprehension keeps first-occurrence order and dedups names. -/
def bucketsInit (sigs : List (String × String)) : Buckets :=
  (pyDedup (sigs.map Prod.snd)).map (fun n => (n, []))

/-- `all_encoded_events_dict[event_name].append(encoded_event)`: append to
the list stored under `name` (every bucket with that key; `bucketsInit`
makes keys unique). -/
def appendToBucket (bs : Buckets) (name : String) (e : RawEntry) : Buckets :=
  bs.map (fun p => if p.1 = name then (p.1, p.2 ++ [e]) else p)

/-- The inner `for event_hex_signature, event_name in ...items()` loop of
`classify_raw_events`: each iteration reads `encoded_event["topics"][0]`
(raising `IndexError` on an empty topic list) and appends on signature
match.  The source's `continue` inside the match continues this inner
loop, so every signature pair is still visited. -/
def classifyEntry (e : RawEntry) : List (String × String) → Buckets → Except PyErr Buckets
  | [], bs => .ok bs
  | (sig, name) :: rest, bs =>
    match pyIndex e.topics 0 with
    | .error err => .error err
    | .ok t0 => classifyEntry e rest (if sig = t0 then appendToBucket bs name e else bs)

/-- The outer `for encoded_event in unique_raw_events` loop; `parse` is the
external `json.loads`. -/
def classifyLoop (sigs : List (String × String)) (parse : String → RawEntry) :
    List String → Buckets → Except PyErr Buckets
  | [], bs => .ok bs
  | s :: rest, bs =>
    match classifyEntry (parse s) sigs bs with
    | .error err => .error err
    | .ok bs' => classifyLoop sigs parse rest bs'

/-- `AaveV3RawEventsDecoder.classify_raw_events`: dedup the serialized raw
entries (`list(set(raw_events))`), then bucket each parsed survivor by its
first topic. -/
def classify_raw_events (sigs : List (String × String)) (parse : String → RawEntry)
    (raw_events : List String) : Except PyErr Buckets :=
  classifyLoop sigs parse (pyDedup raw_events) (bucketsInit sigs)

/-- The event name an entry classifies under: look up its first topic among
the signature hashes. -/
def sigNameOf (sigs : List (String × String)) (e : RawEntry) : Option String :=
  (e.topics.get? 0).bind (fun t0 => pyLookup t0 sigs)

/-! ### Active-address aggregator (`get_all_active_users`, lines 99-127) -/

/-- The hardcoded `active_users_events` dict (lines 100-112). -/
def active_users_events : List (String × List String) :=
  [("Borrow", ["onBehalfOf", "user"]),
   ("Supply", ["onBehalfOf", "user"]),
   ("Repay", ["user", "repayer"]),
   ("Withdraw", ["user", "to"]),
   ("LiquidationCall", ["user", "liquidator"]),
   ("FlashLoan", ["initiator", "target"]),
   ("UserEModeSet", ["user"]),
   ("ReserveUsedAsCollateralEnabled", ["user"]),
   ("ReserveUsedAsCollateralDisabled", ["user"]),
   ("BackUnbacked", ["backer"]),
   ("MintUnbacked", ["onBehalfOf", "user"])]

/-- `df[colname]` on the decoded table of one kind: the column values, a
`KeyError` if some record lacks the column. -/
def pyColumn (col : String) : List Record → Except PyErr (List Value)
  | [] => .ok []
  | r :: rest =>
    match pyLookup col r with
    | none => .error .keyError
    | some v =>
      match pyColumn col rest with
      | .error err => .error err
      | .ok vs => .ok (v :: vs)

/-- The inner `for colname in colnames` loop: when the kind's table is
non-empty, extend the accumulator with the column's unique values and
re-dedup (`list(set(all_active_users))`). -/
def aggColumns (store : String → List Record) (name : String) :
    List String → List Value → Except PyErr (List Value)
  | [], acc => .ok acc
  | col :: cols, acc =>
    if 0 < (store name).length then
      match pyColumn col (store name) with
      | .error err => .error err
      | .ok vals => aggColumns store name cols (pyDedup (acc ++ pyDedup vals))
    else aggColumns store name cols acc

/-- The outer `for event_name, colnames in active_users_events.items()` loop. -/
def aggKinds (store : String → List Record) :
    List (String × List String) → List Value → Except PyErr (List Value)
  | [], acc => .ok acc
  | (name, cols) :: rest, acc =>
    match aggColumns store name cols acc with
    | .error err => .error err
    | .ok acc' => aggKinds store rest acc'

/-- `AaveV3RawEventsDecoder.get_all_active_users` over the decoded-event
store (`all_decoded_events_dict`, one list of records per kind). -/
def get_all_active_users (store : String → List Record) : Except PyErr (List Value) :=
  aggKinds store active_users_events []

/-! ### Token transfer decoder (`token_transfer_decoder.py`) -/

/-- A raw transfer entry; `reserve` is carried out-of-band by the caller. -/
structure TransferEntry where
  blockNumber : Nat
  reserve : String
  topics : List String
  data : String
deriving DecidableEq, Repr

/-- A decoded transfer record (columns of the output table; `from`/`to` are
keywords in Lean, hence the trailing underscore). -/
structure TransferRec where
  blockNumber : Nat
  reserve : String
  from_ : String
  to_ : String
  amount : Nat
deriving DecidableEq, Repr

def zeroAddress : String := "0x0000000000000000000000000000000000000000"

/-- `AaveV3TokenTransferDecoder._decode_transfer` (lines 53-79). -/
def decode_transfer_inner (cs : String → String) (e : TransferEntry) :
    Except PyErr TransferRec := do
  let t1 ← pyIndex e.topics 1
  let from_ ← toChecksumAddress cs (pyTakeLast t1 40)
  let t2 ← pyIndex e.topics 2
  let to_ ← toChecksumAddress cs (pyTakeLast t2 40)
  let amount ← pyIntHex (pySliceTo (pyDropStr e.data 2) 64)
  .ok ⟨e.blockNumber, e.reserve, from_, to_, amount⟩

/-- `AaveV3TokenTransferDecoder.decode_transfer_events` (lines 13-36):
decode every serialized entry (`parseT` stands for the source's
reconstruction of the entry from its string form), then drop the rows
whose `from` is the all-zero address. -/
def decode_transfer_events (cs : String → String) (parseT : String → TransferEntry)
    (all_encoded_events : List String) : Except PyErr (List TransferRec) :=
  match exceptMapM (fun s => decode_transfer_inner cs (parseT s)) all_encoded_events with
  | .error err => .error err
  | .ok decoded => .ok (decoded.filter (fun r => r.from_ ≠ zeroAddress))

/-- `AaveV3TokenTransferDecoder.get_all_token_transfer_users` (lines 38-51):
concatenate the `from` and `to` columns of the final table and
`drop_duplicates()`. -/
def get_all_token_transfer_users (table : List TransferRec) : List String :=
  pyDedup (table.map TransferRec.from_ ++ table.map TransferRec.to_)

/-! ### Helper lemmas -/

/-- Ordered concatenation of images, used to state what a nested loop collects. -/
def concatMap {α β : Type} (f : α → List β) : List α → List β
  | [] => []
  | x :: xs => f x ++ concatMap f xs

theorem mem_concatMap {α β : Type} (f : α → List β) (b : β) :
    ∀ l : List α, b ∈ concatMap f l ↔ ∃ a ∈ l, b ∈ f a := by
  intro l
  induction l with
  | nil => simp [concatMap]
  | cons x xs ih => simp [concatMap, ih]

theorem mem_pyDedupAux {α : Type} [DecidableEq α] (a : α) (l : List α) :
    ∀ seen, a ∈ pyDedupAux seen l ↔ a ∈ l ∧ a ∉ seen := by
  induction l with
  | nil => simp [pyDedupAux]
  | cons x xs ih =>
    intro seen
    by_cases hx : x ∈ seen
    · simp only [pyDedupAux, if_pos hx, ih, List.mem_cons]
      constructor
      · rintro ⟨h1, h2⟩; exact ⟨Or.inr h1, h2⟩
      · rintro ⟨h1 | h1, h2⟩
        · exact absurd (h1 ▸ hx) h2
        · exact ⟨h1, h2⟩
    · simp only [pyDedupAux, if_neg hx, List.mem_cons, ih, List.mem_cons]
      constructor
      · rintro (rfl | ⟨h1, h2⟩)
        · exact ⟨Or.inl rfl, hx⟩
        · exact ⟨Or.inr h1, fun hs => h2 (Or.inr hs)⟩
      · rintro ⟨rfl | h1, h2⟩
        · exact Or.inl rfl
        · by_cases hax : a = x
          · exact Or.inl hax
          · exact Or.inr ⟨h1, fun hs => h2 (hs.elim (absurd · hax) id)⟩

theorem mem_pyDedup {α : Type} [DecidableEq α] (a : α) (l : List α) :
    a ∈ pyDedup l ↔ a ∈ l := by
  simp [pyDedup, mem_pyDedupAux]

theorem toFinset_pyDedup {α : Type} [DecidableEq α] (l : List α) :
    (pyDedup l).toFinset = l.toFinset := by
  ext a; simp [mem_pyDedup]

theorem pyDedupAux_nodup {α : Type} [DecidableEq α] (l : List α) :
    ∀ seen, (pyDedupAux seen l).Nodup := by
  induction l with
  | nil => intro seen; simp [pyDedupAux]
  | cons x xs ih =>
    intro seen
    by_cases hx : x ∈ seen
    · simpa [pyDedupAux, if_pos hx] using ih seen
    · rw [pyDedupAux, if_neg hx]
      refine List.nodup_cons.mpr ⟨?_, ih (x :: seen)⟩
      intro hmem
      exact ((mem_pyDedupAux x xs (x :: seen)).mp hmem).2 (List.mem_cons_self x seen)

theorem pyDedup_nodup {α : Type} [DecidableEq α] (l : List α) : (pyDedup l).Nodup := by
  exact pyDedupAux_nodup l []

theorem pyDedupAux_eq_self {α : Type} [DecidableEq α] (l : List α) :
    ∀ seen, l.Nodup → (∀ a ∈ l, a ∉ seen) → pyDedupAux seen l = l := by
  induction l with
  | nil => intro seen _ _; rfl
  | cons x xs ih =>
    intro seen hnd hout
    have hx : x ∉ seen := hout x (List.mem_cons_self x xs)
    rw [pyDedupAux, if_neg hx]
    congr 1
    refine ih (x :: seen) (List.nodup_cons.mp hnd).2 ?_
    intro a ha hmem
    rcases List.mem_cons.mp hmem with rfl | hs
    · exact (List.nodup_cons.mp hnd).1 ha
    · exact hout a (List.mem_cons_of_mem _ ha) hs

theorem pyDedup_idem {α : Type} [DecidableEq α] (l : List α) :
    pyDedup (pyDedup l) = pyDedup l :=
  pyDedupAux_eq_self (pyDedup l) [] (pyDedup_nodup l) (by simp)

theorem exceptMapM_ok_mem {α β : Type} (f : α → Except PyErr β) :
    ∀ (l : List α) (ys : List β), exceptMapM f l = .ok ys →
      ∀ s ∈ l, ∀ y, f s = .ok y → y ∈ ys := by
  intro l
  induction l with
  | nil => intro ys _ s hs; exact absurd hs (List.not_mem_nil s)
  | cons x xs ih =>
    intro ys hok s hs y hy
    rw [exceptMapM] at hok
    cases hfx : f x with
    | error err => rw [hfx] at hok; exact absurd hok (by simp)
    | ok y0 =>
      rw [hfx] at hok
      cases hrest : exceptMapM f xs with
      | error err => rw [hrest] at hok; exact absurd hok (by simp)
      | ok ys0 =>
        rw [hrest] at hok
        injection hok with hok
        subst hok
        rcases List.mem_cons.mp hs with rfl | hs'
        · rw [hfx] at hy
          injection hy with hy
          subst hy
          exact List.mem_cons_self _ _
        · exact List.mem_cons_of_mem _ (ih ys0 hrest s hs' y hy)

/-! ### Concrete scenario inputs -/

/-- Topic word holding address `0xAAAA...` (20 bytes, left-padded to 32). -/
def topicAW : String := "0x000000000000000000000000aaaaaaaaaaaaaaaaaaaaaaaaaaaaaaaaaaaaaaaa"

/-- Topic word holding address `0xBBBB...`. -/
def topicBW : String := "0x000000000000000000000000bbbbbbbbbbbbbbbbbbbbbbbbbbbbbbbbbbbbbbbb"

/-- Topic word holding the integer 7. -/
def topic7W : String := "0x0000000000000000000000000000000000000000000000000000000000000007"

/-- Data payload: padded user address word followed by padded 100000. -/
def dataW : String :=
  "0x000000000000000000000000cccccccccccccccccccccccccccccccccccccccc00000000000000000000000000000000000000000000000000000000000186a0"

/-- Short data payload: a full user address word followed by only 32 hex
characters (96 hex characters total, fewer than the 128 = 64·2 the Supply
schema's two data fields require). -/
def shortDataW : String :=
  "0x000000000000000000000000cccccccccccccccccccccccccccccccccccccccc0000000000000000000000000000002a"

def addrAW : String := "aaaaaaaaaaaaaaaaaaaaaaaaaaaaaaaaaaaaaaaa"
def addrBW : String := "bbbbbbbbbbbbbbbbbbbbbbbbbbbbbbbbbbbbbbbb"
def addrUW : String := "cccccccccccccccccccccccccccccccccccccccc"

/-! ### Claim theorems -/

/-- C1: decoding a Supply raw log entry with topics
`[SIG, word(0xAAAA...), word(0xBBBB...), word(7)]` and data
`"0x" ++ pad(user) ++ pad(100000)` yields the record
`{event: "Supply", blockNumber (verbatim), reserve: checksum(0xAAAA...),
onBehalfOf: checksum(0xBBBB...), referralCode: 7, user: checksum(user),
amount: 100000}`, one attribute per declared field in schema order
(`cs` is the EIP-55 checksum casing core of `Web3.to_checksum_address`). -/
theorem supply_scenario_decoded :
    ∀ (cs : String → String) (bn : Nat) (sig : String),
    decode_supply cs ⟨bn, [sig, topicAW, topicBW, topic7W], dataW⟩ =
      .ok [("event", Value.str "Supply"), ("blockNumber", Value.int bn),
           ("reserve", Value.str ("0x" ++ cs addrAW)),
           ("onBehalfOf", Value.str ("0x" ++ cs addrBW)),
           ("referralCode", Value.int 7),
           ("user", Value.str ("0x" ++ cs addrUW)),
           ("amount", Value.int 100000)] := by
  intro cs bn sig
  rfl

/-- C2 (code bug witness): the source decodes MintUnbacked's indexed
`uint16 referralCode` topic with `Web3.to_checksum_address(topics[3][-40:])`
instead of `int(topics[3], 16)`: on a topic word holding the integer 7 the
decoded `referralCode` attribute is the checksummed-address *string*
obtained from the low 20 bytes of the word, not the integer 7 (nor any
integer).  Indexed integers elsewhere (e.g. Borrow/Supply `referralCode`,
see `decode_borrow`/`decode_supply`) do take the whole word via `int(_,16)`. -/
theorem mint_unbacked_referral_code_is_address :
    ∀ (cs : String → String) (bn : Nat) (sig : String),
    (decode_mint_unbacked cs ⟨bn, [sig, topicAW, topicBW, topic7W], dataW⟩ =
      .ok [("event", Value.str "MintUnbacked"), ("blockNumber", Value.int bn),
           ("reserve", Value.str ("0x" ++ cs addrAW)),
           ("onBehalfOf", Value.str ("0x" ++ cs addrBW)),
           ("referralCode",
             Value.str ("0x" ++ cs "0000000000000000000000000000000000000007")),
           ("user", Value.str ("0x" ++ cs addrUW)),
           ("amount", Value.int 100000)]) ∧
    ∀ n : Nat,
      Value.str ("0x" ++ cs "0000000000000000000000000000000000000007") ≠ Value.int n := by
  intro cs bn sig
  exact ⟨rfl, fun n h => Value.noConfusion h⟩

/-- C3 (code bug witness): the source performs no length validation, so a
Supply entry whose data payload has only 96 hex characters (fewer than the
128 its two data fields need) does **not** fail: decoding silently returns
a record whose `amount` is parsed from the 32 remaining characters
(here 0x2a = 42), i.e. a wrong-but-plausible value instead of a
`MalformedEventError`. -/
theorem supply_short_data_silently_decodes :
    ∀ (cs : String → String) (bn : Nat) (sig : String),
    decode_supply cs ⟨bn, [sig, topicAW, topicBW, topic7W], shortDataW⟩ =
      .ok [("event", Value.str "Supply"), ("blockNumber", Value.int bn),
           ("reserve", Value.str ("0x" ++ cs addrAW)),
           ("onBehalfOf", Value.str ("0x" ++ cs addrBW)),
           ("referralCode", Value.int 7),
           ("user", Value.str ("0x" ++ cs addrUW)),
           ("amount", Value.int 42)] := by
  intro cs bn sig
  rfl

/-- C7: classifying a raw list equals classifying the raw list with its
duplicates removed (`list(set(...))` is idempotent): the per-kind buckets —
not only as sets but as the very same bucket table — coincide. -/
theorem classify_dedup_law :
    ∀ (sigs : List (String × String)) (parse : String → RawEntry) (raw_events : List String),
    classify_raw_events sigs parse raw_events =
      classify_raw_events sigs parse (pyDedup raw_events) := by
  intro sigs parse raw_events
  unfold classify_raw_events
  rw [pyDedup_idem]

/-- C4: in the token-transfer decoder, every record of the final table has a
non-zero `from`; every decoded record with non-zero `from` is retained; and
the active-user set only draws addresses from records of the final
(filtered) table — so a record decoded with `from = 0x000...0` appears in
neither. -/
theorem transfer_zero_from_filtered :
    ∀ (cs : String → String) (parseT : String → TransferEntry)
      (raw : List String) (table : List TransferRec),
    decode_transfer_events cs parseT raw = .ok table →
      (∀ r ∈ table, r.from_ ≠ zeroAddress) ∧
      (∀ s ∈ raw, ∀ r, decode_transfer_inner cs (parseT s) = .ok r →
        r.from_ ≠ zeroAddress → r ∈ table) ∧
      (∀ a ∈ get_all_token_transfer_users table, ∃ r ∈ table, a = r.from_ ∨ a = r.to_) := by
  intro cs parseT raw table hok
  unfold decode_transfer_events at hok
  cases hm : exceptMapM (fun s => decode_transfer_inner cs (parseT s)) raw with
  | error err => rw [hm] at hok; exact absurd hok (by simp)
  | ok decoded =>
    rw [hm] at hok
    injection hok with hok
    subst hok
    refine ⟨?_, ?_, ?_⟩
    · intro r hr
      exact of_decide_eq_true (List.mem_filter.mp hr).2
    · intro s hs r hr hneq
      exact List.mem_filter.mpr
        ⟨exceptMapM_ok_mem _ raw decoded hm s hs r hr, decide_eq_true hneq⟩
    · intro a ha
      unfold get_all_token_transfer_users at ha
      rw [mem_pyDedup] at ha
      rcases List.mem_append.mp ha with hcol | hcol
      · rcases List.mem_map.mp hcol with ⟨r, hr, rfl⟩
        exact ⟨r, hr, Or.inl rfl⟩
      · rcases List.mem_map.mp hcol with ⟨r, hr, rfl⟩
        exact ⟨r, hr, Or.inr rfl⟩

/-- Topic word holding the all-zero address. -/
def zeroTopicW : String := "0x0000000000000000000000000000000000000000000000000000000000000000"

/-- Topic word holding address `0xDDDD...`. -/
def topicDW : String := "0x000000000000000000000000dddddddddddddddddddddddddddddddddddddddd"

/-- One-word transfer data payload (amount = 100000). -/
def transferDataW : String :=
  "0x00000000000000000000000000000000000000000000000000000000000186a0"

/-- Raw transfer batch: `"z"` parses to an entry with a zero `from` topic,
`"n"` to one with `from = 0xAAAA...`. -/
def parseTW : String → TransferEntry := fun s =>
  if s = "z" then ⟨100, "0xRES", ["0xs", zeroTopicW, topicDW], transferDataW⟩
  else ⟨101, "0xRES", ["0xs", topicAW, topicDW], transferDataW⟩

def rawTransfersW : List String := ["z", "n"]

/-- The final table for `rawTransfersW` under the identity checksum core:
only the non-zero-`from` record survives. -/
def tableW : List TransferRec :=
  [⟨101, "0xRES", "0xaaaaaaaaaaaaaaaaaaaaaaaaaaaaaaaaaaaaaaaa",
    "0xdddddddddddddddddddddddddddddddddddddddd", 100000⟩]

/-- C4 witness: the conclusion of `transfer_zero_from_filtered` at the
concrete batch containing a zero-`from` transfer entry. -/
theorem transfer_zero_from_filtered_witness :
    (∀ r ∈ tableW, r.from_ ≠ zeroAddress) ∧
    (∀ s ∈ rawTransfersW, ∀ r, decode_transfer_inner id (parseTW s) = .ok r →
      r.from_ ≠ zeroAddress → r ∈ tableW) ∧
    (∀ a ∈ get_all_token_transfer_users tableW, ∃ r ∈ tableW, a = r.from_ ∨ a = r.to_) :=
  transfer_zero_from_filtered id parseTW rawTransfersW tableW (by rfl)

/-! ### Signature-collision behaviour of the index build -/

def eventSigHex (keccakHex : String → String) (a : AbiEntry) : String :=
  keccakHex (eventSignature a)

/-- The name of the *last* event entry of the catalog whose signature hash
is `k` (spec-side description of the `dict.update` overwrite behaviour). -/
def lastEventName (keccakHex : String → String) : List AbiEntry → String → Option String
  | [], _ => none
  | a :: rest, k =>
    match lastEventName keccakHex rest k with
    | some n => some n
    | none =>
      if a.type = "event" ∧ eventSigHex keccakHex a = k then some a.name else none

theorem lookup_dictUpdate (k k' v : String) :
    ∀ d : List (String × String),
    pyLookup k (dictUpdate d k' v) = if k = k' then some v else pyLookup k d := by
  intro d
  induction d with
  | nil =>
    by_cases hk : k = k' <;> simp [dictUpdate, pyLookup, hk]
  | cons p rest ih =>
    obtain ⟨k0, v0⟩ := p
    by_cases h0 : k0 = k'
    · subst h0
      by_cases hk : k = k0 <;> simp [dictUpdate, pyLookup, hk]
    · rw [dictUpdate, if_neg h0]
      by_cases hk : k = k0
      · subst hk
        simp [pyLookup, h0]
      · simp [pyLookup, hk, ih]

theorem lookup_sig_foldl (keccakHex : String → String) :
    ∀ (abis : List AbiEntry) (d : List (String × String)) (k : String),
    pyLookup k (abis.foldl
        (fun d a => if a.type = "event" then dictUpdate d (keccakHex (eventSignature a)) a.name else d) d) =
      match lastEventName keccakHex abis k with
      | some n => some n
      | none => pyLookup k d := by
  intro abis
  induction abis with
  | nil => intro d k; rfl
  | cons a rest ih =>
    intro d k
    rw [List.foldl_cons, ih]
    cases hrest : lastEventName keccakHex rest k with
    | some n => simp [lastEventName, hrest]
    | none =>
      simp only [lastEventName, hrest]
      by_cases hev : a.type = "event"
      · rw [if_pos hev]
        by_cases hk : eventSigHex keccakHex a = k
        · rw [if_pos ⟨hev, hk⟩, lookup_dictUpdate, if_pos (by rw [← hk]; rfl)]
        · rw [if_neg (fun hc => hk hc.2), lookup_dictUpdate,
            if_neg (fun hc => hk (by rw [hc]; rfl))]
      · rw [if_neg hev, if_neg (fun hc => hev hc.1)]

/-- C8 (amended): building the signature index never fails; on a signature
collision the later schema silently overwrites the earlier mapping
(`dict.update` last-wins): for every hash function, catalog and hash, the
index maps the hash to the name of the *last* event schema with that hash. -/
theorem signature_collision_last_wins :
    ∀ (keccakHex : String → String) (contract_abi : List AbiEntry) (k : String),
    pyLookup k (get_events_signatures_as_hex keccakHex contract_abi) =
      lastEventName keccakHex contract_abi k := by
  intro keccakHex contract_abi k
  rw [get_events_signatures_as_hex, lookup_sig_foldl]
  cases lastEventName keccakHex contract_abi k <;> rfl

/-- A hash function under which the two distinct schemas of
`collisionCatalogW` collide. -/
def collisionHashW : String → String := fun _ => "0xc011"

def collisionCatalogW : List AbiEntry :=
  [⟨"event", "EventA", []⟩, ⟨"event", "EventB", []⟩]

/-- C8 counterexample: with two distinct schemas whose signature hashes
collide, the catalog build does **not** fail: it returns an index (the
build has no failure path at all) in which the colliding hash maps to the
*later* schema's name only — the claimed fatal configuration error never
happens. -/
theorem signature_collision_not_fatal :
    get_events_signatures_as_hex collisionHashW collisionCatalogW = [("0xc011", "EventB")] ∧
    pyLookup "0xc011" (get_events_signatures_as_hex collisionHashW collisionCatalogW) =
      some "EventB" :=
  ⟨rfl, rfl⟩

/-! ### Classification lemmas -/

theorem pyIndex_ok {α : Type} (l : List α) (i : Nat) (a : α) :
    pyIndex l i = .ok a ↔ l.get? i = some a := by
  unfold pyIndex
  cases h : l.get? i <;> simp

theorem topics_get0 (e : RawEntry) (h : e.topics ≠ []) :
    ∃ t0, e.topics.get? 0 = some t0 := by
  cases ht : e.topics with
  | nil => exact absurd ht h
  | cons t ts => exact ⟨t, rfl⟩

theorem mem_appendToBucket (bs : Buckets) (name : String) (e : RawEntry)
    (n : String) (b : List RawEntry) :
    (n, b) ∈ appendToBucket bs name e →
      ∃ b0, (n, b0) ∈ bs ∧ (b = b0 ∨ (n = name ∧ b = b0 ++ [e])) := by
  intro h
  rcases List.mem_map.mp h with ⟨⟨n0, b0⟩, hmem, heq⟩
  by_cases hn : n0 = name
  · rw [if_pos hn] at heq
    injection heq with h1 h2
    subst h1
    exact ⟨b0, hmem, Or.inr ⟨hn, h2.symm⟩⟩
  · rw [if_neg hn] at heq
    injection heq with h1 h2
    subst h1
    exact ⟨b0, hmem, Or.inl h2.symm⟩

/-- The buckets produced by one pass of the inner signature loop, given the
entry's first topic. -/
def classifyEntryPure (e : RawEntry) (t0 : String) :
    List (String × String) → Buckets → Buckets
  | [], bs => bs
  | (sig, name) :: rest, bs =>
    classifyEntryPure e t0 rest (if sig = t0 then appendToBucket bs name e else bs)

theorem classifyEntry_eq_pure (e : RawEntry) (t0 : String)
    (h : e.topics.get? 0 = some t0) :
    ∀ (sigs : List (String × String)) (bs : Buckets),
    classifyEntry e sigs bs = .ok (classifyEntryPure e t0 sigs bs) := by
  intro sigs
  induction sigs with
  | nil => intro bs; rfl
  | cons p rest ih =>
    intro bs
    obtain ⟨sig, name⟩ := p
    rw [classifyEntry, classifyEntryPure]
    have hp : pyIndex e.topics 0 = .ok t0 := (pyIndex_ok _ _ _).mpr h
    rw [hp]
    exact ih _

theorem mem_classifyEntry (e : RawEntry) :
    ∀ (sigs : List (String × String)) (bs bs' : Buckets),
    classifyEntry e sigs bs = .ok bs' →
      ∀ n b, (n, b) ∈ bs' → ∀ x ∈ b,
        (∃ b0, (n, b0) ∈ bs ∧ x ∈ b0) ∨
        (x = e ∧ ∃ p ∈ sigs, e.topics.get? 0 = some p.1 ∧ p.2 = n) := by
  intro sigs
  induction sigs with
  | nil =>
    intro bs bs' hok n b hb x hx
    rw [classifyEntry] at hok
    injection hok with hok
    subst hok
    exact Or.inl ⟨b, hb, hx⟩
  | cons p rest ih =>
    intro bs bs' hok n b hb x hx
    obtain ⟨sig, name⟩ := p
    rw [classifyEntry] at hok
    cases hp : pyIndex e.topics 0 with
    | error err => rw [hp] at hok; exact absurd hok (by simp)
    | ok t0 =>
      rw [hp] at hok
      have ht0 : e.topics.get? 0 = some t0 := (pyIndex_ok _ _ _).mp hp
      rcases ih _ _ hok n b hb x hx with ⟨b0, hb0, hx0⟩ | ⟨hxe, q, hq, hqt, hqn⟩
      · by_cases hsig : sig = t0
        · rw [if_pos hsig] at hb0
          rcases mem_appendToBucket bs name e n b0 hb0 with ⟨b1, hb1, heq | ⟨hn, heq⟩⟩
          · exact Or.inl ⟨b1, hb1, heq ▸ hx0⟩
          · subst heq
            rcases List.mem_append.mp hx0 with hx1 | hx1
            · exact Or.inl ⟨b1, hb1, hx1⟩
            · have hxe : x = e := List.mem_singleton.mp hx1
              exact Or.inr ⟨hxe, (sig, name), List.mem_cons_self _ _,
                by rw [ht0, hsig], hn.symm⟩
        · rw [if_neg hsig] at hb0
          exact Or.inl ⟨b0, hb0, hx0⟩
      · exact Or.inr ⟨hxe, q, List.mem_cons_of_mem _ hq, hqt, hqn⟩

theorem classifyLoop_isOk (sigs : List (String × String)) (parse : String → RawEntry) :
    ∀ (L : List String) (bs : Buckets),
    (∀ s ∈ L, (parse s).topics ≠ []) →
    ∃ bs', classifyLoop sigs parse L bs = .ok bs' := by
  intro L
  induction L with
  | nil => intro bs _; exact ⟨bs, rfl⟩
  | cons s rest ih =>
    intro bs h
    obtain ⟨t0, ht0⟩ := topics_get0 (parse s) (h s (List.mem_cons_self _ _))
    obtain ⟨bs', hbs'⟩ := ih (classifyEntryPure (parse s) t0 sigs bs)
      (fun s' hs' => h s' (List.mem_cons_of_mem _ hs'))
    exact ⟨bs', by rw [classifyLoop, classifyEntry_eq_pure (parse s) t0 ht0]; exact hbs'⟩

theorem mem_classifyLoop (sigs : List (String × String)) (parse : String → RawEntry) :
    ∀ (L : List String) (bs bs' : Buckets),
    classifyLoop sigs parse L bs = .ok bs' →
      ∀ n b, (n, b) ∈ bs' → ∀ x ∈ b,
        (∃ b0, (n, b0) ∈ bs ∧ x ∈ b0) ∨
        (∃ s ∈ L, x = parse s ∧
          ∃ p ∈ sigs, (parse s).topics.get? 0 = some p.1 ∧ p.2 = n) := by
  intro L
  induction L with
  | nil =>
    intro bs bs' hok n b hb x hx
    rw [classifyLoop] at hok
    injection hok with hok
    subst hok
    exact Or.inl ⟨b, hb, hx⟩
  | cons s rest ih =>
    intro bs bs' hok n b hb x hx
    rw [classifyLoop] at hok
    cases hce : classifyEntry (parse s) sigs bs with
    | error err => rw [hce] at hok; exact absurd hok (by simp)
    | ok bs1 =>
      rw [hce] at hok
      rcases ih bs1 bs' hok n b hb x hx with ⟨b0, hb0, hx0⟩ | ⟨s', hs', hxeq, q, hq, hqt, hqn⟩
      · rcases mem_classifyEntry (parse s) sigs bs bs1 hce n b0 hb0 x hx0 with
          ⟨b1, hb1, hx1⟩ | ⟨hxe, q, hq, hqt, hqn⟩
        · exact Or.inl ⟨b1, hb1, hx1⟩
        · exact Or.inr ⟨s, List.mem_cons_self _ _, hxe, q, hq, hqt, hqn⟩
      · exact Or.inr ⟨s', List.mem_cons_of_mem _ hs', hxeq, q, hq, hqt, hqn⟩

theorem pyLookup_none {β : Type} (k : String) :
    ∀ l : List (String × β), pyLookup k l = none → ∀ p ∈ l, p.1 ≠ k := by
  intro l
  induction l with
  | nil => intro _ p hp; exact absurd hp (List.not_mem_nil p)
  | cons q rest ih =>
    intro h p hp
    obtain ⟨k', v⟩ := q
    rw [pyLookup] at h
    by_cases hk : k = k'
    · rw [if_pos hk] at h; exact absurd h (by simp)
    · rw [if_neg hk] at h
      rcases List.mem_cons.mp hp with rfl | hp'
      · exact fun hc => hk hc.symm
      · exact ih h p hp'

/-- C6: entries whose first topic matches no signature hash of the index end
up in no kind's bucket, and classification completes without an error
(given the raw-source interface guarantee that every entry carries at
least one topic, §6 of the spec). -/
theorem classify_unknown_signature_dropped :
    ∀ (sigs : List (String × String)) (parse : String → RawEntry)
      (raw_events : List String),
    (∀ s ∈ raw_events, (parse s).topics ≠ []) →
    ∃ bs, classify_raw_events sigs parse raw_events = .ok bs ∧
      ∀ s ∈ raw_events, sigNameOf sigs (parse s) = none →
        ∀ nb ∈ bs, parse s ∉ nb.2 := by
  intro sigs parse raw_events htop
  obtain ⟨bs, hbs⟩ := classifyLoop_isOk sigs parse (pyDedup raw_events) (bucketsInit sigs)
    (fun s hs => htop s ((mem_pyDedup s raw_events).mp hs))
  refine ⟨bs, hbs, ?_⟩
  intro s _ hnone nb hnb hmem
  obtain ⟨n, b⟩ := nb
  rcases mem_classifyLoop sigs parse (pyDedup raw_events) (bucketsInit sigs) bs hbs
      n b hnb (parse s) hmem with ⟨b0, hb0, hx0⟩ | ⟨s', _, hxeq, q, hq, hqt, _⟩
  · rcases List.mem_map.mp hb0 with ⟨n0, _, heq⟩
    injection heq with _ h2
    rw [← h2] at hx0
    exact absurd hx0 (List.not_mem_nil _)
  · rw [← hxeq] at hqt
    unfold sigNameOf at hnone
    rw [hqt] at hnone
    exact pyLookup_none q.1 sigs hnone q hq rfl

/-- C6 witness inputs: one known-signature entry, one unknown. -/
def sigsC6W : List (String × String) := [("0xs1", "Borrow")]

def parseC6W : String → RawEntry := fun s =>
  if s = "known" then ⟨1, ["0xs1"], "0x"⟩ else ⟨2, ["0xzz"], "0x"⟩

/-- C6 witness: the conclusion of `classify_unknown_signature_dropped` for a
concrete batch containing an unknown-signature entry. -/
theorem classify_unknown_signature_dropped_witness :
    ∃ bs, classify_raw_events sigsC6W parseC6W ["known", "unk"] = .ok bs ∧
      ∀ s ∈ ["known", "unk"], sigNameOf sigsC6W (parseC6W s) = none →
        ∀ nb ∈ bs, parseC6W s ∉ nb.2 :=
  classify_unknown_signature_dropped sigsC6W parseC6W ["known", "unk"] (by decide)

theorem map_congr_mem {α β : Type} (l : List α) (f g : α → β)
    (h : ∀ a ∈ l, f a = g a) : l.map f = l.map g := by
  induction l with
  | nil => rfl
  | cons x xs ih =>
    rw [List.map_cons, List.map_cons, h x (List.mem_cons_self _ _),
      ih (fun a ha => h a (List.mem_cons_of_mem _ ha))]

theorem pyLookup_mem {β : Type} (k : String) (v : β) :
    ∀ l : List (String × β), pyLookup k l = some v → (k, v) ∈ l := by
  intro l
  induction l with
  | nil => intro h; exact absurd h (by simp [pyLookup])
  | cons q rest ih =>
    intro h
    obtain ⟨k', v'⟩ := q
    rw [pyLookup] at h
    by_cases hk : k = k'
    · rw [if_pos hk] at h
      injection h with h
      exact hk ▸ h ▸ List.mem_cons_self _ _
    · rw [if_neg hk] at h
      exact List.mem_cons_of_mem _ (ih h)

theorem classifyEntryPure_no_match (e : RawEntry) (t0 : String) :
    ∀ (sigs : List (String × String)) (bs : Buckets),
    (∀ p ∈ sigs, p.1 ≠ t0) → classifyEntryPure e t0 sigs bs = bs := by
  intro sigs
  induction sigs with
  | nil => intro bs _; rfl
  | cons p rest ih =>
    intro bs h
    obtain ⟨sig, name⟩ := p
    rw [classifyEntryPure, if_neg (h (sig, name) (List.mem_cons_self _ _))]
    exact ih bs (fun q hq => h q (List.mem_cons_of_mem _ hq))

theorem classifyEntryPure_lookup (e : RawEntry) (t0 : String) :
    ∀ (sigs : List (String × String)) (bs : Buckets),
    (sigs.map Prod.fst).Nodup →
    classifyEntryPure e t0 sigs bs =
      match pyLookup t0 sigs with
      | some name => appendToBucket bs name e
      | none => bs := by
  intro sigs
  induction sigs with
  | nil => intro bs _; rfl
  | cons p rest ih =>
    intro bs hnd
    obtain ⟨sig, name⟩ := p
    rw [List.map_cons, List.nodup_cons] at hnd
    rw [classifyEntryPure]
    by_cases hsig : sig = t0
    · rw [if_pos hsig]
      have hno : ∀ q ∈ rest, q.1 ≠ t0 := by
        intro q hq hc
        apply hnd.1
        have hmm : q.1 ∈ rest.map Prod.fst := List.mem_map_of_mem Prod.fst hq
        rw [hc, ← hsig] at hmm
        exact hmm
      rw [classifyEntryPure_no_match e t0 rest _ hno]
      have hlk : pyLookup t0 ((sig, name) :: rest) = some name := by
        rw [pyLookup, if_pos hsig.symm]
      rw [hlk]
    · rw [if_neg hsig, ih bs hnd.2]
      have hlk : pyLookup t0 ((sig, name) :: rest) = pyLookup t0 rest := by
        rw [pyLookup, if_neg (fun h => hsig h.symm)]
      rw [hlk]

theorem classifyLoop_characterization (sigs : List (String × String))
    (parse : String → RawEntry) (hnd : (sigs.map Prod.fst).Nodup) :
    ∀ (L : List String) (f : String → List RawEntry),
    (∀ s ∈ L, (parse s).topics ≠ []) →
    classifyLoop sigs parse L ((pyDedup (sigs.map Prod.snd)).map (fun n => (n, f n))) =
      .ok ((pyDedup (sigs.map Prod.snd)).map (fun n =>
        (n, f n ++ (L.map parse).filter (fun e => sigNameOf sigs e = some n)))) := by
  intro L
  induction L with
  | nil =>
    intro f _
    rw [classifyLoop]
    simp
  | cons s rest ih =>
    intro f htop
    obtain ⟨t0, ht0⟩ := topics_get0 (parse s) (htop s (List.mem_cons_self _ _))
    have htop' : ∀ s' ∈ rest, (parse s').topics ≠ [] :=
      fun s' hs' => htop s' (List.mem_cons_of_mem _ hs')
    have hsig : sigNameOf sigs (parse s) = pyLookup t0 sigs := by
      unfold sigNameOf
      rw [ht0]
      rfl
    have hstep : classifyLoop sigs parse (s :: rest)
        ((pyDedup (sigs.map Prod.snd)).map (fun n => (n, f n))) =
        classifyLoop sigs parse rest
          (classifyEntryPure (parse s) t0 sigs
            ((pyDedup (sigs.map Prod.snd)).map (fun n => (n, f n)))) := by
      rw [classifyLoop, classifyEntry_eq_pure (parse s) t0 ht0]
    rw [hstep, classifyEntryPure_lookup (parse s) t0 sigs _ hnd]
    cases hlk : pyLookup t0 sigs with
    | none =>
      show classifyLoop sigs parse rest
        ((pyDedup (sigs.map Prod.snd)).map (fun n => (n, f n))) = _
      rw [ih f htop']
      congr 1
      apply map_congr_mem
      intro n _
      rw [List.map_cons, List.filter_cons,
        if_neg (by simp [hsig, hlk])]
    | some name =>
      have happ : appendToBucket ((pyDedup (sigs.map Prod.snd)).map (fun n => (n, f n)))
          name (parse s) =
          (pyDedup (sigs.map Prod.snd)).map
            (fun n => (n, if n = name then f n ++ [parse s] else f n)) := by
        unfold appendToBucket
        rw [List.map_map]
        apply map_congr_mem
        intro n _
        by_cases h : n = name <;> simp [h]
      show classifyLoop sigs parse rest
        (appendToBucket ((pyDedup (sigs.map Prod.snd)).map (fun n => (n, f n)))
          name (parse s)) = _
      rw [happ, ih (fun n => if n = name then f n ++ [parse s] else f n) htop']
      congr 1
      apply map_congr_mem
      intro n _
      by_cases h : n = name
      · subst h
        rw [if_pos rfl, List.map_cons, List.filter_cons,
          if_pos (by simp [hsig, hlk]), List.append_assoc]
        rfl
      · rw [if_neg h, List.map_cons, List.filter_cons,
          if_neg (by simp [hsig, hlk]; exact fun hc => h hc.symm)]

theorem sum_map_add {α : Type} (f g : α → Nat) :
    ∀ l : List α, (l.map (fun a => f a + g a)).sum = (l.map f).sum + (l.map g).sum := by
  intro l
  induction l with
  | nil => rfl
  | cons x xs ih => simp [ih]; omega

theorem sum_indicator (n0 : String) :
    ∀ names : List String, names.Nodup → n0 ∈ names →
      (names.map (fun n => if n0 = n then 1 else 0)).sum = 1 := by
  intro names
  induction names with
  | nil => intro _ h; exact absurd h (List.not_mem_nil n0)
  | cons m rest ih =>
    intro hnd hmem
    rw [List.nodup_cons] at hnd
    rw [List.map_cons, List.sum_cons]
    by_cases h : n0 = m
    · rw [if_pos h]
      have hz : (rest.map (fun n => if n0 = n then 1 else 0)).sum = 0 := by
        have hzz : ∀ n ∈ rest, (if n0 = n then 1 else 0) = 0 := by
          intro n hn
          have hne : ¬ n0 = n := fun hc => hnd.1 (by rw [← h, hc]; exact hn)
          rw [if_neg hne]
        rw [map_congr_mem rest _ _ hzz]
        simp
      omega
    · rw [if_neg h]
      have : n0 ∈ rest := (List.mem_cons.mp hmem).resolve_left h
      rw [ih hnd.2 this]

theorem sum_filter_lengths (sigs : List (String × String)) :
    ∀ (E : List RawEntry) (names : List String), names.Nodup →
    (∀ e ∈ E, ∀ n, sigNameOf sigs e = some n → n ∈ names) →
    ((names.map (fun n =>
        (E.filter (fun e => sigNameOf sigs e = some n)).length)).sum =
      E.countP (fun e => (sigNameOf sigs e).isSome)) := by
  intro E
  induction E with
  | nil => intro names _ _; simp
  | cons e E' ih =>
    intro names hnd hcl
    have hcl' : ∀ e' ∈ E', ∀ n, sigNameOf sigs e' = some n → n ∈ names :=
      fun e' he' => hcl e' (List.mem_cons_of_mem _ he')
    rw [List.countP_cons]
    cases hs : sigNameOf sigs e with
    | none =>
      have hpt : ∀ n ∈ names,
          ((e :: E').filter (fun x => sigNameOf sigs x = some n)).length =
          (E'.filter (fun x => sigNameOf sigs x = some n)).length := by
        intro n _
        rw [List.filter_cons, if_neg (by simp [hs])]
      rw [map_congr_mem names _ _ hpt, ih names hnd hcl']
      simp [hs]
    | some n0 =>
      have hn0 : n0 ∈ names := hcl e (List.mem_cons_self _ _) n0 hs
      have hpt : ∀ n ∈ names,
          ((e :: E').filter (fun x => sigNameOf sigs x = some n)).length =
          (if n0 = n then 1 else 0) +
            (E'.filter (fun x => sigNameOf sigs x = some n)).length := by
        intro n _
        rw [List.filter_cons]
        by_cases h : n0 = n
        · rw [if_pos (by simp [hs, h]), if_pos h, List.length_cons]
          omega
        · rw [if_neg (by simp [hs]; exact h), if_neg h]
          omega
      rw [map_congr_mem names _ _ hpt, sum_map_add,
        sum_indicator n0 names hnd hn0, ih names hnd hcl']
      simp [hs]
      omega

/-- C10: with distinct signature hashes, classification puts every
surviving (deduplicated) raw entry in exactly one kind's bucket when its
first topic is a known signature and in none otherwise, no entry value
appears in two different kinds' buckets, and the total number of bucketed
entries equals the number of unique entries with a known signature. -/
theorem classify_partition :
    ∀ (sigs : List (String × String)) (parse : String → RawEntry)
      (raw_events : List String),
    (sigs.map Prod.fst).Nodup →
    (∀ s ∈ raw_events, (parse s).topics ≠ []) →
    ∃ bs, classify_raw_events sigs parse raw_events = .ok bs ∧
      (∀ x n₁ n₂ b₁ b₂, (n₁, b₁) ∈ bs → (n₂, b₂) ∈ bs → x ∈ b₁ → x ∈ b₂ → n₁ = n₂) ∧
      (∀ s ∈ pyDedup raw_events, ∀ n, sigNameOf sigs (parse s) = some n →
        ∃ b, (n, b) ∈ bs ∧ parse s ∈ b) ∧
      (∀ s ∈ pyDedup raw_events, sigNameOf sigs (parse s) = none →
        ∀ nb ∈ bs, parse s ∉ nb.2) ∧
      ((bs.map (fun nb => nb.2.length)).sum =
        ((pyDedup raw_events).map parse).countP (fun e => (sigNameOf sigs e).isSome)) := by
  intro sigs parse raw_events hnd htop
  have htopD : ∀ s ∈ pyDedup raw_events, (parse s).topics ≠ [] :=
    fun s hs => htop s ((mem_pyDedup s raw_events).mp hs)
  have hchar := classifyLoop_characterization sigs parse hnd (pyDedup raw_events)
    (fun _ => []) htopD
  simp only [List.nil_append] at hchar
  refine ⟨_, hchar, ?_, ?_, ?_, ?_⟩
  · intro x n₁ n₂ b₁ b₂ hb₁ hb₂ hx₁ hx₂
    rcases List.mem_map.mp hb₁ with ⟨m₁, _, he₁⟩
    rcases List.mem_map.mp hb₂ with ⟨m₂, _, he₂⟩
    injection he₁ with he₁n he₁b
    injection he₂ with he₂n he₂b
    subst he₁n
    subst he₂n
    rw [← he₁b] at hx₁
    rw [← he₂b] at hx₂
    have h₁ := of_decide_eq_true (List.mem_filter.mp hx₁).2
    have h₂ := of_decide_eq_true (List.mem_filter.mp hx₂).2
    rw [h₁] at h₂
    injection h₂
  · intro s hs n hn
    have hmem : n ∈ pyDedup (sigs.map Prod.snd) := by
      unfold sigNameOf at hn
      obtain ⟨t0, ht0⟩ := topics_get0 (parse s) (htopD s hs)
      rw [ht0] at hn
      exact (mem_pyDedup n _).mpr
        (List.mem_map_of_mem Prod.snd (pyLookup_mem t0 n sigs hn))
    refine ⟨((pyDedup raw_events).map parse).filter
      (fun e => sigNameOf sigs e = some n), List.mem_map_of_mem _ hmem, ?_⟩
    exact List.mem_filter.mpr ⟨List.mem_map_of_mem parse hs, decide_eq_true hn⟩
  · intro s _ hnone nb hnb hmem
    rcases List.mem_map.mp hnb with ⟨m, _, he⟩
    rw [← he] at hmem
    have := of_decide_eq_true (List.mem_filter.mp hmem).2
    rw [hnone] at this
    exact Option.noConfusion this
  · rw [List.map_map]
    have : ((fun nb : String × List RawEntry => nb.2.length) ∘
        (fun n => (n, ((pyDedup raw_events).map parse).filter
          (fun e => sigNameOf sigs e = some n)))) =
        (fun n => (((pyDedup raw_events).map parse).filter
          (fun e => sigNameOf sigs e = some n)).length) := rfl
    rw [this]
    apply sum_filter_lengths
    · exact pyDedup_nodup _
    · intro e _ n hn
      unfold sigNameOf at hn
      cases ht : e.topics.get? 0 with
      | none => rw [ht] at hn; exact Option.noConfusion hn
      | some t0 =>
        rw [ht] at hn
        exact (mem_pyDedup n _).mpr
          (List.mem_map_of_mem Prod.snd (pyLookup_mem t0 n sigs hn))

/-- C10 witness inputs: two known kinds and one unknown entry. -/
def sigsC10W : List (String × String) := [("0xs1", "KindA"), ("0xs2", "KindB")]

def parseC10W : String → RawEntry := fun s =>
  if s = "a" then ⟨1, ["0xs1"], "0x"⟩
  else if s = "b" then ⟨2, ["0xs2"], "0x"⟩
  else ⟨3, ["0xzz"], "0x"⟩

/-- C10 witness: the partition conclusion at a concrete batch. -/
theorem classify_partition_witness :
    ∃ bs, classify_raw_events sigsC10W parseC10W ["a", "b", "u"] = .ok bs ∧
      (∀ x n₁ n₂ b₁ b₂, (n₁, b₁) ∈ bs → (n₂, b₂) ∈ bs → x ∈ b₁ → x ∈ b₂ → n₁ = n₂) ∧
      (∀ s ∈ pyDedup ["a", "b", "u"], ∀ n, sigNameOf sigsC10W (parseC10W s) = some n →
        ∃ b, (n, b) ∈ bs ∧ parseC10W s ∈ b) ∧
      (∀ s ∈ pyDedup ["a", "b", "u"], sigNameOf sigsC10W (parseC10W s) = none →
        ∀ nb ∈ bs, parseC10W s ∉ nb.2) ∧
      ((bs.map (fun nb => nb.2.length)).sum =
        ((pyDedup ["a", "b", "u"]).map parseC10W).countP
          (fun e => (sigNameOf sigsC10W e).isSome)) :=
  classify_partition sigsC10W parseC10W ["a", "b", "u"] (by decide) (by decide)

/-! ### Aggregator lemmas -/

/-- The values of one column over a kind's records (those that carry it). -/
def colValues (recs : List Record) (col : String) : List Value :=
  recs.filterMap (fun r => pyLookup col r)

/-- All address values the aggregator is meant to collect: for each
configured `(kind, columns)` pair, the values of those columns over the
kind's records. -/
def aggSpecL (conf : List (String × List String)) (store : String → List Record) :
    List Value :=
  concatMap (fun p => concatMap (colValues (store p.1)) p.2) conf

theorem pyColumn_ok (col : String) :
    ∀ recs : List Record, (∀ r ∈ recs, (pyLookup col r).isSome) →
      pyColumn col recs = .ok (colValues recs col) := by
  intro recs
  induction recs with
  | nil => intro _; rfl
  | cons r rest ih =>
    intro h
    obtain ⟨v, hveq⟩ := Option.isSome_iff_exists.mp (h r (List.mem_cons_self _ _))
    have ihr := ih (fun r' hr' => h r' (List.mem_cons_of_mem _ hr'))
    simp [pyColumn, hveq, ihr, colValues, List.filterMap_cons]

theorem aggColumns_ok (store : String → List Record) (name : String) :
    ∀ (cols : List String) (acc : List Value),
    (∀ col ∈ cols, ∀ r ∈ store name, (pyLookup col r).isSome) →
    ∃ acc', aggColumns store name cols acc = .ok acc' ∧
      acc'.toFinset = acc.toFinset ∪ (concatMap (colValues (store name)) cols).toFinset := by
  intro cols
  induction cols with
  | nil =>
    intro acc _
    exact ⟨acc, rfl, by simp [concatMap]⟩
  | cons col cols ih =>
    intro acc h
    have h' : ∀ c ∈ cols, ∀ r ∈ store name, (pyLookup c r).isSome :=
      fun c hc => h c (List.mem_cons_of_mem _ hc)
    by_cases hlen : 0 < (store name).length
    · have hcol := pyColumn_ok col (store name)
        (fun r hr => h col (List.mem_cons_self _ _) r hr)
      obtain ⟨acc', hacc', hfin⟩ :=
        ih (pyDedup (acc ++ pyDedup (colValues (store name) col))) h'
      refine ⟨acc', ?_, ?_⟩
      · rw [aggColumns, if_pos hlen, hcol]
        exact hacc'
      · rw [hfin, toFinset_pyDedup, List.toFinset_append, toFinset_pyDedup]
        have hc : concatMap (colValues (store name)) (col :: cols) =
            colValues (store name) col ++ concatMap (colValues (store name)) cols := rfl
        rw [hc, List.toFinset_append, Finset.union_assoc]
    · have hempty : store name = [] := by
        cases hsn : store name with
        | nil => rfl
        | cons a l => rw [hsn] at hlen; exact absurd (Nat.succ_pos _) hlen
      obtain ⟨acc', hacc', hfin⟩ := ih acc h'
      refine ⟨acc', ?_, ?_⟩
      · rw [aggColumns, if_neg hlen]
        exact hacc'
      · rw [hempty] at hfin ⊢
        rw [hfin]
        have hc : concatMap (colValues ([] : List Record)) (col :: cols) =
            concatMap (colValues ([] : List Record)) cols := rfl
        rw [hc]

theorem aggKinds_ok (store : String → List Record) :
    ∀ (conf : List (String × List String)) (acc : List Value),
    (∀ p ∈ conf, ∀ col ∈ p.2, ∀ r ∈ store p.1, (pyLookup col r).isSome) →
    ∃ res, aggKinds store conf acc = .ok res ∧
      res.toFinset = acc.toFinset ∪ (aggSpecL conf store).toFinset := by
  intro conf
  induction conf with
  | nil =>
    intro acc _
    exact ⟨acc, rfl, by simp [aggSpecL, concatMap]⟩
  | cons p rest ih =>
    intro acc h
    obtain ⟨name, cols⟩ := p
    obtain ⟨acc', hacc', hfin'⟩ := aggColumns_ok store name cols acc
      (fun col hc r hr => h (name, cols) (List.mem_cons_self _ _) col hc r hr)
    obtain ⟨res, hres, hfin⟩ := ih acc'
      (fun q hq => h q (List.mem_cons_of_mem _ hq))
    refine ⟨res, ?_, ?_⟩
    · rw [aggKinds, hacc']
      exact hres
    · rw [hfin, hfin']
      have hc : aggSpecL ((name, cols) :: rest) store =
          concatMap (colValues (store name)) cols ++ aggSpecL rest store := rfl
      rw [hc, List.toFinset_append, Finset.union_assoc]

theorem aggSpecL_perm (store : String → List Record)
    (conf conf' : List (String × List String)) (hp : conf.Perm conf') :
    (aggSpecL conf store).toFinset = (aggSpecL conf' store).toFinset := by
  ext v
  simp only [List.mem_toFinset, aggSpecL, mem_concatMap]
  constructor
  · rintro ⟨p, hp', hv⟩
    exact ⟨p, hp.mem_iff.mp hp', hv⟩
  · rintro ⟨p, hp', hv⟩
    exact ⟨p, hp.mem_iff.mpr hp', hv⟩

/-- C5: aggregation over the decoded-event store never fails when the
configured columns are present, collects exactly the set of address values
of the configured columns (`aggSpecL`) — so a kind with zero decoded
records contributes nothing — and the resulting set is unchanged under any
permutation of the processing order of the kinds.  The source's
`get_all_active_users` is this loop at its hardcoded kind/column table. -/
theorem active_users_aggregation :
    ∀ (conf conf' : List (String × List String)) (store : String → List Record),
    conf.Perm conf' →
    (∀ p ∈ conf, ∀ col ∈ p.2, ∀ r ∈ store p.1, (pyLookup col r).isSome) →
    ∃ res res', aggKinds store conf [] = .ok res ∧ aggKinds store conf' [] = .ok res' ∧
      res.toFinset = (aggSpecL conf store).toFinset ∧
      res'.toFinset = res.toFinset ∧
      get_all_active_users store = aggKinds store active_users_events [] := by
  intro conf conf' store hperm h
  obtain ⟨res, hres, hfin⟩ := aggKinds_ok store conf [] h
  obtain ⟨res', hres', hfin'⟩ := aggKinds_ok store conf' []
    (fun p hp => h p (hperm.mem_iff.mpr hp))
  refine ⟨res, res', hres, hres', by simpa using hfin, ?_, rfl⟩
  have hp := aggSpecL_perm store conf conf' hperm
  rw [hfin, hfin', hp]

/-- C5 witness inputs: one kind with zero records, one with 3 records
referencing 2 distinct addresses. -/
def confC5W : List (String × List String) :=
  [("EmptyKind", ["user"]), ("BusyKind", ["user"])]

def confC5W' : List (String × List String) :=
  [("BusyKind", ["user"]), ("EmptyKind", ["user"])]

def storeC5W : String → List Record := fun n =>
  if n = "BusyKind" then
    [[("user", Value.str "0xU1")], [("user", Value.str "0xU2")],
     [("user", Value.str "0xU1")]]
  else []

/-- C5 witness: at the concrete store (one empty kind, one kind with N = 3
records over M = 2 distinct addresses) aggregation succeeds in both kind
orders with the same resulting set, of exactly 2 elements. -/
theorem active_users_aggregation_witness :
    (∃ res res', aggKinds storeC5W confC5W [] = .ok res ∧
      aggKinds storeC5W confC5W' [] = .ok res' ∧
      res.toFinset = (aggSpecL confC5W storeC5W).toFinset ∧
      res'.toFinset = res.toFinset ∧
      get_all_active_users storeC5W = aggKinds storeC5W active_users_events []) ∧
    (aggSpecL confC5W storeC5W).toFinset.card = 2 :=
  ⟨active_users_aggregation confC5W confC5W' storeC5W (by decide) (by decide),
   by decide⟩

end AaveDecoder
